import Mathlib

/-!
Verification of the NeuralVault ingestion/search core.

Shallow embedding of the Python sources under `app/`:
  * `app/workers/queue_manager.py`  — job types, retry policy of `IngestionQueue._process_job`
  * `app/workers/processors.py`     — `_process_resource_ingestion`, `rebuild_pending_queue`
  * `app/services/vector_service.py`— `chunk_text`, `upsert_chunks`, `delete_by_resource`
  * `app/api/search.py`             — hybrid search endpoint (the `VectorService.search_hybrid`
    body it calls is not part of this snapshot and is modelled from the spec where needed)

External collaborators (SQLite session, Qdrant client, fastembed models, llama-index
SentenceSplitter, file parser, uuid4 generator, sha256) are parameters of the model:
the embedding quantifies over their outputs instead of recomputing them.
-/

namespace NeuralVault

/-- `SyncStatus` enum from `app/models/sql_models.py`. -/
inductive SyncStatus
  | pending
  | synced
  | dirty
  | error
deriving DecidableEq, Repr

/-- `ProcessingStage` enum from `app/models/sql_models.py`. -/
inductive ProcessingStage
  | todo
  | chunking
  | embedding
  | done
deriving DecidableEq, Repr

/-- `JobType` enum from `app/workers/queue_manager.py`. -/
inductive JobType
  | ingestResource
  | deleteResource
deriving DecidableEq, Repr

/-- `JobAction` enum from `app/workers/queue_manager.py`. -/
inductive JobAction
  | created
  | updated
  | deleted
deriving DecidableEq, Repr

/-- The `IngestionJob` dataclass from `app/workers/queue_manager.py`
(with its Python field defaults `retry_count = 0`, `max_retries = 3`). -/
structure IngestionJob where
  job_type : JobType
  source_id : Nat
  action : JobAction
  retry_count : Nat := 0
  max_retries : Nat := 3
deriving DecidableEq, Repr

/-! ## Ingestion queue retry policy (`IngestionQueue._process_job`) -/

/-- The `except` branch of `IngestionQueue._process_job`: when the processor has
raised, the job is retried (with `retry_count` incremented) precisely when
`job.retry_count < job.max_retries` held at the moment of failure; otherwise it
is dropped.  Returns the job that gets re-enqueued, if any. -/
def retryDecision (job : IngestionJob) : Option IngestionJob :=
  if job.retry_count < job.max_retries then
    some { job with retry_count := job.retry_count + 1 }
  else
    none

/-- Effect of one `_process_job` call on the queue (modelled as a list, head =
next job to be dequeued; `asyncio.Queue.put` appends at the tail).  The job has
already been popped; on a raised exception (`outcome = .error _`) the retry
branch runs, on success the queue is untouched. -/
def processJobQueueEffect (q : List IngestionJob) (job : IngestionJob)
    (outcome : Except String Unit) : List IngestionJob :=
  match outcome with
  | .ok _ => q
  | .error _ =>
    match retryDecision job with
    | some retriedJob => q ++ [retriedJob]
    | none => q

/-- Helper for counting attempts: number of `_process_job` invocations received
by an always-raising job currently at retry count `rc` with limit `mr`. -/
def attemptsFrom (rc mr : Nat) : Nat :=
  if rc < mr then 1 + attemptsFrom (rc + 1) mr else 1
termination_by mr - rc
decreasing_by omega

/-- Total number of `_process_job` invocations a job receives when every
invocation raises: the current attempt, plus the attempts of its re-enqueued
successor while `retry_count < max_retries`. -/
def attemptsAlwaysFailing (job : IngestionJob) : Nat :=
  attemptsFrom job.retry_count job.max_retries

lemma attemptsFrom_eq (rc mr : Nat) (h : rc ≤ mr) :
    attemptsFrom rc mr = mr - rc + 1 := by
  generalize hd : mr - rc = n
  induction n generalizing rc with
  | zero =>
    rw [attemptsFrom, if_neg (by omega)]
  | succ n ih =>
    rw [attemptsFrom, if_pos (by omega), ih (rc + 1) (by omega) (by omega)]
    omega

/-- **C2** — If the processor invocation raises, `_process_job` increments the
job's `retry_count` and re-enqueues it at the tail of the queue exactly when
`retry_count < max_retries` held at the moment of failure (and leaves the queue
unchanged otherwise, dropping the job); a successful invocation never touches
the queue; the dataclass default for `max_retries` is 3; and a job whose
processing always throws is attempted exactly `max_retries + 1` times
(4 with the default) before being dropped. -/
theorem ingestion_queue_retry_policy (q : List IngestionJob) (job : IngestionJob) (msg : String) :
    (processJobQueueEffect q job (.error msg) =
      if job.retry_count < job.max_retries then
        q ++ [{ job with retry_count := job.retry_count + 1 }]
      else q) ∧
    processJobQueueEffect q job (.ok ()) = q ∧
    ({ job_type := JobType.ingestResource, source_id := 0,
       action := JobAction.created } : IngestionJob).max_retries = 3 ∧
    attemptsAlwaysFailing { job with retry_count := 0 } = job.max_retries + 1 := by
  refine ⟨?_, rfl, rfl, ?_⟩
  · by_cases h : job.retry_count < job.max_retries
    · simp [processJobQueueEffect, retryDecision, h]
    · simp [processJobQueueEffect, retryDecision, h]
  · show attemptsFrom 0 job.max_retries = job.max_retries + 1
    rw [attemptsFrom_eq 0 job.max_retries (Nat.zero_le _)]
    omega

/-! ## Chunker (`VectorService.chunk_text`)

`chunk_text` delegates the actual splitting to the external llama-index
`SentenceSplitter` (`self._splitter.split_text(text)`), then decorates each
piece.  The splitter is an external collaborator, so the model below takes the
splitter's output (the list of chunk strings, in document order) as input and
embeds the decoration loop of `chunk_text`. -/

/-- The `TextChunk` dataclass from `app/services/vector_service.py`. -/
structure TextChunk where
  text : String
  chunk_index : Nat
  page_number : Option Nat := none
  token_count : Option Nat := none
deriving DecidableEq, Repr

/-- Digit run → number, for the captured group of the page-marker pattern. -/
def digitsToNat (ds : List Char) : Nat :=
  ds.foldl (fun a c => a * 10 + (c.toNat - 48)) 0

/-- Does the pattern `\[Page (\d+)\]` match at the head of `l`?  Returns the
captured number if so.  (`re` semantics: literal "[Page ", then a maximal
nonempty digit run — backtracking cannot shorten it, since shortening leaves a
digit where "]" is required — then a literal "]".) -/
def matchPageAt (l : List Char) : Option Nat :=
  if "[Page ".toList.isPrefixOf l then
    let rest := l.drop 6
    let ds := rest.takeWhile Char.isDigit
    if ds ≠ [] ∧ (rest.drop ds.length).head? = some ']' then
      some (digitsToNat ds)
    else
      none
  else
    none

/-- `re.search` of `\[Page (\d+)\]`: the leftmost match in the string. -/
def searchPage : List Char → Option Nat
  | [] => none
  | c :: cs =>
    match matchPageAt (c :: cs) with
    | some n => some n
    | none => searchPage cs

/-- Python `len(chunk.split())`: the number of maximal nonempty runs of
non-whitespace characters. -/
def pyTokenCount (s : String) : Nat :=
  ((s.split Char.isWhitespace).filter (· ≠ "")).length

/-- The decoration loop of `VectorService.chunk_text`, applied to the pieces
returned by the external `SentenceSplitter`: enumerate the pieces, search each
piece for a `[Page N]` marker, and count its whitespace-split tokens. -/
def chunk_text (pieces : List String) : List TextChunk :=
  pieces.enum.map fun p =>
    { text := p.2
      chunk_index := p.1
      page_number := searchPage p.2.toList
      token_count := some (pyTokenCount p.2) }

/-- Last `[Page N]` marker in a character list (tracking the match that starts
at the latest position), used to formalise the claim's "marker most recently
seen" page semantics. -/
def lastPageAux (cur : Option Nat) : List Char → Option Nat
  | [] => cur
  | c :: cs =>
    match matchPageAt (c :: cs) with
    | some n => lastPageAux (some n) cs
    | none => lastPageAux cur cs

/-- Last `[Page N]` marker occurring in a string, or `none`. -/
def lastPage (s : String) : Option Nat :=
  lastPageAux none s.toList

/-- The claim's page-number semantics (C7, formalised from the spec's words,
for comparison with the code's `chunk_text`): each chunk's page number is the
number of the marker most recently seen before that chunk's offset in the
source text, the source text being the pieces in document order; a chunk with
no marker of its own inherits the last marker that precedes it. -/
def claimPageNumbers (pieces : List String) : List (Option Nat) :=
  (List.range pieces.length).map fun i =>
    lastPage (String.join (pieces.take i))

/-- **C7 counterexample** — on the splitter output
`["intro [Page 1] hello", "world"]` the code assigns
`[some 1, none]` (each chunk is searched in isolation; the marker-free chunk
"world" gets `none`), while the claim's inheritance semantics assigns
`[none, some 1]` ("world" inherits page 1). -/
theorem chunk_text_page_inheritance_cex :
    (chunk_text ["intro [Page 1] hello", "world"]).map TextChunk.page_number =
        [some 1, none] ∧
    claimPageNumbers ["intro [Page 1] hello", "world"] = [none, some 1] ∧
    ¬ ((chunk_text ["intro [Page 1] hello", "world"]).map TextChunk.page_number =
        claimPageNumbers ["intro [Page 1] hello", "world"]) := by
  refine ⟨by decide, by decide, by decide⟩

/-- **C7 (amended)** — for every splitter output, `chunk_text` returns chunks
whose `chunk_index` values are 0-based, contiguous and in document order
(`= List.range`), whose texts are the pieces in order, and whose `page_number`
is computed from each chunk's own text alone: the leftmost `[Page N]` marker
inside the chunk when one exists, and `none` otherwise — page numbers are not
inherited from preceding chunks, and a chunk spanning a page boundary takes
the number of the marker inside it, not the earlier page. -/
lemma map_snd_enum {α β : Type} (l : List α) (f : α → β) :
    l.enum.map (fun x => f x.2) = l.map f := by
  rw [show (fun x : Nat × α => f x.2) = f ∘ Prod.snd from rfl, ← List.map_map,
    List.enum_map_snd]

theorem chunk_text_indices_and_pages (pieces : List String) :
    (chunk_text pieces).map TextChunk.chunk_index = List.range pieces.length ∧
    (chunk_text pieces).map TextChunk.text = pieces ∧
    (chunk_text pieces).map TextChunk.page_number =
      pieces.map (fun s => searchPage s.toList) ∧
    (chunk_text pieces).map TextChunk.token_count =
      pieces.map (fun s => some (pyTokenCount s)) := by
  refine ⟨?_, ?_, ?_, ?_⟩ <;>
    simp only [chunk_text, List.map_map, Function.comp_def]
  · exact List.enum_map_fst pieces
  · rw [map_snd_enum pieces (fun s => s)]
    simp
  · exact map_snd_enum pieces (fun s => searchPage s.toList)
  · exact map_snd_enum pieces (fun s => some (pyTokenCount s))

/-! ## Resource processor (`_process_resource_ingestion`)

The processor touches three stores: the SQLite `resources` table, the SQLite
`context_chunks` table, and the Qdrant collection.  SQLite changes become
visible at `session.commit()` (an exception rolls pending changes back);
Qdrant calls (`delete_by_resource`, `upsert`) take effect immediately.
External collaborators (file parser, sentence splitter, embedding models,
uuid4 and sha256) are fields of `Env`; `D`/`S` are the dense/sparse vector
types produced by the fastembed models. -/

/-- `FileType` enum from `app/models/sql_models.py`. -/
inductive FileType
  | text
  | image
  | pdf
  | url
  | epub
  | other
deriving DecidableEq, Repr

/-- The fields of the `Resource` row that `_process_resource_ingestion`,
`rebuild_pending_queue` and their callees read or write.  (Identity and
display metadata — `uuid`, `source_meta`, `display_name`, `file_size_bytes`,
`classification_status`, the datetime columns and `user_id` — are never
consulted by the modelled code and are omitted.) -/
structure Resource where
  resource_id : Nat
  file_hash : String
  file_type : FileType := .other
  content : Option String := none
  file_path : Option String := none
  sync_status : SyncStatus := .pending
  indexed_hash : Option String := none
  processing_hash : Option String := none
  last_error : Option String := none
  processing_stage : ProcessingStage := .todo
  is_deleted : Bool := false
deriving DecidableEq, Repr

/-- A `context_chunks` row as written by `_process_resource_ingestion`
(`embedding_at` datetime omitted). -/
structure ContextChunkRow where
  resource_id : Nat
  chunk_text : String
  chunk_index : Nat
  page_number : Option Nat
  qdrant_uuid : String
  embedding_hash : String
  embedding_model : Option String
  token_count : Option Nat
deriving DecidableEq, Repr

/-- A Qdrant point as built by `VectorService.upsert_chunks`: a uuid id, the
two named vectors, and the payload fields. -/
structure VectorPoint (D S : Type) where
  id : String
  dense : D
  sparse : S
  resource_id : Nat
  chunk_index : Nat
  page_number : Option Nat
  text : String
  token_count : Option Nat
deriving DecidableEq, Repr

/-- Result of `file_service.parse_file`: the extracted text, or one of the two
exception classes the processor handles (`NotImplementedError`,
`FileNotFoundError`), or any other exception (e.g. the `ValueError` raised for
URL resources), which the processor does not handle in place. -/
inductive ParseOutcome
  | ok (text : String)
  | notImplementedError (msg : String)
  | fileNotFoundError (msg : String)
  | raised (msg : String)
deriving DecidableEq, Repr

/-- External collaborators of the processor.  The batched embedding calls
(`embed_dense`/`embed_sparse`, order matching input order) are modelled by
their per-text action; `upsertOutcome` injects an infrastructure failure
(embedding model or Qdrant raising inside `upsert_chunks`): `some msg` means
that call raises with message `msg` before any point is written. -/
structure Env (D S : Type) where
  parseFile : String → FileType → ParseOutcome
  splitText : String → List String
  embedDense : String → D
  embedSparse : String → S
  sha256hex16 : String → String
  denseModelName : Option String
  upsertOutcome : Option String

/-- The mutable state the processor acts on. -/
structure SysState (D S : Type) where
  resources : List Resource
  contextChunks : List ContextChunkRow
  vectorStore : List (VectorPoint D S)
deriving DecidableEq, Repr

/-- Message pushed through the progress callback, or the (declared, never
broadcast) `IngestionResult` message.  `broadcast_result` exists in
`queue_manager.py` but has no caller, so processor runs can only ever produce
`progress` entries; the `result` constructor is part of the vocabulary so that
claims about Result events are statable. -/
inductive Event
  | progress (resource_id : Nat) (stage : ProcessingStage) (percentage : Nat)
  | result (resource_id : Nat) (success : Bool) (chunkUuids : List String)
      (error : Option String)
deriving DecidableEq, Repr

/-- Is this event a Result event (as opposed to a Progress event)? -/
def Event.isResult : Event → Bool
  | .progress _ _ _ => false
  | .result _ _ _ _ => true

/-- `select(Resource).where(resource_id == rid)` + `scalar_one_or_none()`. -/
def findResource (rs : List Resource) (rid : Nat) : Option Resource :=
  rs.find? (fun r => r.resource_id == rid)

/-- Apply an ORM attribute update + commit to the row(s) with the given id. -/
def updateResource (rs : List Resource) (rid : Nat) (f : Resource → Resource) :
    List Resource :=
  rs.map (fun r => if r.resource_id == rid then f r else r)

/-- Python truthiness of an optional string (`if resource.content:`):
false for `None` and for the empty string. -/
def pyTruthy : Option String → Bool
  | none => false
  | some s => !(s == "")

/-- `not text_content or not text_content.strip()`: no text, or only
whitespace (which includes the empty string). -/
def pyBlank : Option String → Bool
  | none => true
  | some s => s.toList.all Char.isWhitespace

/-- The parse step (processor step 2): inline `content` When truthy is used
directly; otherwise a truthy `file_path` is parsed, with the two content-error
exception classes handled in place and anything else left to the generic
handler; otherwise there is no text. -/
inductive ExtractResult
  | text (t : Option String)
  | contentError (msg : String)
  | raised (msg : String)
deriving DecidableEq, Repr

/-- Step 2 of `_process_resource_ingestion` (text acquisition). -/
def extractText {D S : Type} (env : Env D S) (r : Resource) : ExtractResult :=
  if pyTruthy r.content then .text r.content
  else if pyTruthy r.file_path then
    match env.parseFile (r.file_path.getD "") r.file_type with
    | .ok t => .text (some t)
    | .notImplementedError m => .contentError m
    | .fileNotFoundError m => .contentError m
    | .raised m => .raised m
  else .text none

/-- The points built by `VectorService.upsert_chunks`: one per chunk, a fresh
uuid4 (`gen i` is the i-th uuid drawn during this call), both named vectors,
and the payload. -/
def mkPoints {D S : Type} (env : Env D S) (gen : Nat → String) (rid : Nat)
    (chunks : List TextChunk) : List (VectorPoint D S) :=
  chunks.enum.map fun p =>
    { id := gen p.1
      dense := env.embedDense p.2.text
      sparse := env.embedSparse p.2.text
      resource_id := rid
      chunk_index := p.2.chunk_index
      page_number := p.2.page_number
      text := p.2.text
      token_count := p.2.token_count }

/-- The `chunk_metadata` entries returned by `upsert_chunks`, materialised in
`_process_resource_ingestion` as `context_chunks` rows. -/
def mkRows {D S : Type} (env : Env D S) (gen : Nat → String) (rid : Nat)
    (chunks : List TextChunk) : List ContextChunkRow :=
  chunks.enum.map fun p =>
    { resource_id := rid
      chunk_text := p.2.text
      chunk_index := p.2.chunk_index
      page_number := p.2.page_number
      qdrant_uuid := gen p.1
      embedding_hash := env.sha256hex16 p.2.text
      embedding_model := env.denseModelName
      token_count := p.2.token_count }

/-- Qdrant `upsert`: idempotent by point id — points whose id is already
present are overwritten, new ids are appended. -/
def upsertPoints {D S : Type} (store pts : List (VectorPoint D S)) :
    List (VectorPoint D S) :=
  store.filter (fun p => !((pts.map VectorPoint.id).contains p.id)) ++ pts

/-- `VectorService.delete_by_resource`: filter-based bulk delete of every
point whose payload `resource_id` matches. -/
def deleteByResource {D S : Type} (store : List (VectorPoint D S)) (rid : Nat) :
    List (VectorPoint D S) :=
  store.filter (fun p => !(p.resource_id == rid))

/-- Output of one processor run: the post-run state, the events pushed through
the progress callback, and whether the run returned normally (`.ok`) or let an
exception propagate to `IngestionQueue._process_job` (`.error msg`). -/
structure RunOutput (D S : Type) where
  state : SysState D S
  events : List Event
  outcome : Except String Unit

/-- First commit of a run: `processing_stage = chunking`,
`processing_hash = file_hash`. -/
def commitChunkingStage (rs : List Resource) (rid : Nat) : List Resource :=
  updateResource rs rid fun r0 =>
    { r0 with processing_stage := .chunking, processing_hash := some r0.file_hash }

/-- Error commit: `sync_status = error`, `last_error = msg` (used both by the
handled content-error branches and by the generic exception handler). -/
def commitErrorStatus (rs : List Resource) (rid : Nat) (msg : String) :
    List Resource :=
  updateResource rs rid fun r0 =>
    { r0 with sync_status := .error, last_error := some msg }

/-- Zero-chunk success commit: `sync_status = synced`,
`processing_stage = done`, `indexed_hash = file_hash` (`last_error` is left
untouched on this path). -/
def commitZeroChunkSuccess (rs : List Resource) (rid : Nat) : List Resource :=
  updateResource rs rid fun r0 =>
    { r0 with sync_status := .synced, processing_stage := .done,
              indexed_hash := some r0.file_hash }

/-- Commit before embedding: `processing_stage = embedding`. -/
def commitEmbeddingStage (rs : List Resource) (rid : Nat) : List Resource :=
  updateResource rs rid fun r0 => { r0 with processing_stage := .embedding }

/-- Final success commit: `sync_status = synced`, `processing_stage = done`,
`indexed_hash = file_hash`, `last_error` cleared. -/
def commitFinalSuccess (rs : List Resource) (rid : Nat) : List Resource :=
  updateResource rs rid fun r0 =>
    { r0 with sync_status := .synced, processing_stage := .done,
              indexed_hash := some r0.file_hash, last_error := none }

/-- `_process_resource_ingestion` from `app/workers/processors.py`.

Commit points of the source are made explicit: SQLite attribute writes reach
`st.resources`/`st.contextChunks` exactly at the corresponding
`session.commit()`, while Qdrant calls mutate `st.vectorStore` immediately.
In the generic `except` handler the pending session changes (for the failing
upsert step: the `ContextChunk` bulk delete of an `Updated` job) are rolled
back, the resource is re-fetched, marked `error` and committed, and the
exception is re-raised. -/
def processResourceIngestion {D S : Type} (env : Env D S) (gen : Nat → String)
    (rid : Nat) (action : JobAction) (st : SysState D S) : RunOutput D S :=
  match findResource st.resources rid with
  | none => ⟨st, [], .ok ()⟩
  | some r =>
    let st1 : SysState D S := { st with resources := commitChunkingStage st.resources rid }
    let ev1 := [Event.progress rid .chunking 10]
    match extractText env r with
    | .contentError msg =>
        ⟨{ st1 with resources := commitErrorStatus st1.resources rid msg },
         ev1, .ok ()⟩
    | .raised msg =>
        ⟨{ st1 with resources := commitErrorStatus st1.resources rid msg },
         ev1, .error msg⟩
    | .text t =>
      if pyBlank t then
        ⟨{ st1 with resources := commitZeroChunkSuccess st1.resources rid },
         ev1 ++ [Event.progress rid .done 100], .ok ()⟩
      else
        let ev2 := ev1 ++ [Event.progress rid .chunking 30]
        let chunks := chunk_text (env.splitText (t.getD ""))
        if chunks.isEmpty then
          ⟨{ st1 with resources := commitZeroChunkSuccess st1.resources rid },
           ev2 ++ [Event.progress rid .done 100], .ok ()⟩
        else
          let st2 : SysState D S := { st1 with resources := commitEmbeddingStage st1.resources rid }
          let ev3 := ev2 ++ [Event.progress rid .embedding 50]
          let store2 :=
            if action == JobAction.updated then deleteByResource st2.vectorStore rid
            else st2.vectorStore
          match env.upsertOutcome with
          | some msg =>
              ⟨{ st2 with vectorStore := store2,
                          resources := commitErrorStatus st2.resources rid msg },
               ev3, .error msg⟩
          | none =>
            let store3 := upsertPoints store2 (mkPoints env gen rid chunks)
            let ev4 := ev3 ++ [Event.progress rid .embedding 80]
            let newCtx :=
              (if action == JobAction.updated then
                st2.contextChunks.filter (fun c => !(c.resource_id == rid))
              else st2.contextChunks) ++ mkRows env gen rid chunks
            ⟨{ resources := commitFinalSuccess st2.resources rid,
               contextChunks := newCtx,
               vectorStore := store3 },
             ev4 ++ [Event.progress rid .done 100], .ok ()⟩

/-- `rebuild_pending_queue` from `app/workers/processors.py`: the startup scan
selecting non-deleted resources with `sync_status ∈ {pending, dirty, error}`
and the jobs it enqueues, in table order. -/
def rebuildPendingQueue (resources : List Resource) : List IngestionJob :=
  (resources.filter fun r =>
      (r.sync_status == .pending || r.sync_status == .dirty
        || r.sync_status == .error) && !r.is_deleted).map fun r =>
    { job_type := JobType.ingestResource
      source_id := r.resource_id
      action := if r.sync_status == .dirty then JobAction.updated
                else JobAction.created }

/-! ### Path characterisations of `processResourceIngestion` -/

lemma findResource_cons (a : Resource) (as : List Resource) (rid : Nat) :
    findResource (a :: as) rid =
      if a.resource_id = rid then some a else findResource as rid := by
  by_cases h : a.resource_id = rid
  · rw [if_pos h]
    exact List.find?_cons_of_pos _ (by simp [h])
  · rw [if_neg h]
    exact List.find?_cons_of_neg _ (by simp [h])

lemma findResource_updateResource (rs : List Resource) (rid : Nat)
    (f : Resource → Resource) (hf : ∀ r, (f r).resource_id = r.resource_id) :
    findResource (updateResource rs rid f) rid = (findResource rs rid).map f := by
  induction rs with
  | nil => rfl
  | cons a as ih =>
    simp only [updateResource, List.map_cons, beq_iff_eq] at *
    by_cases h : a.resource_id = rid
    · simp [findResource_cons, h, hf]
    · simp [findResource_cons, h, ih]

lemma findResource_commitChunkingStage (rs : List Resource) (rid : Nat) :
    findResource (commitChunkingStage rs rid) rid =
      (findResource rs rid).map (fun r0 =>
        { r0 with processing_stage := .chunking,
                  processing_hash := some r0.file_hash }) :=
  findResource_updateResource rs rid _ (fun _ => rfl)

lemma findResource_commitErrorStatus (rs : List Resource) (rid : Nat)
    (msg : String) :
    findResource (commitErrorStatus rs rid msg) rid =
      (findResource rs rid).map (fun r0 =>
        { r0 with sync_status := .error, last_error := some msg }) :=
  findResource_updateResource rs rid _ (fun _ => rfl)

lemma findResource_commitZeroChunkSuccess (rs : List Resource) (rid : Nat) :
    findResource (commitZeroChunkSuccess rs rid) rid =
      (findResource rs rid).map (fun r0 =>
        { r0 with sync_status := .synced, processing_stage := .done,
                  indexed_hash := some r0.file_hash }) :=
  findResource_updateResource rs rid _ (fun _ => rfl)

lemma findResource_commitEmbeddingStage (rs : List Resource) (rid : Nat) :
    findResource (commitEmbeddingStage rs rid) rid =
      (findResource rs rid).map (fun r0 =>
        { r0 with processing_stage := .embedding }) :=
  findResource_updateResource rs rid _ (fun _ => rfl)

lemma findResource_commitFinalSuccess (rs : List Resource) (rid : Nat) :
    findResource (commitFinalSuccess rs rid) rid =
      (findResource rs rid).map (fun r0 =>
        { r0 with sync_status := .synced, processing_stage := .done,
                  indexed_hash := some r0.file_hash, last_error := none }) :=
  findResource_updateResource rs rid _ (fun _ => rfl)

lemma run_contentError {D S : Type} (env : Env D S) (gen : Nat → String)
    (rid : Nat) (action : JobAction) (st : SysState D S) (r : Resource)
    (msg : String)
    (hfind : findResource st.resources rid = some r)
    (hext : extractText env r = .contentError msg) :
    processResourceIngestion env gen rid action st =
      ⟨{ st with resources :=
            commitErrorStatus (commitChunkingStage st.resources rid) rid msg },
       [Event.progress rid .chunking 10], .ok ()⟩ := by
  simp only [processResourceIngestion, hfind, hext]

lemma run_parseRaised {D S : Type} (env : Env D S) (gen : Nat → String)
    (rid : Nat) (action : JobAction) (st : SysState D S) (r : Resource)
    (msg : String)
    (hfind : findResource st.resources rid = some r)
    (hext : extractText env r = .raised msg) :
    processResourceIngestion env gen rid action st =
      ⟨{ st with resources :=
            commitErrorStatus (commitChunkingStage st.resources rid) rid msg },
       [Event.progress rid .chunking 10], .error msg⟩ := by
  simp only [processResourceIngestion, hfind, hext]

lemma run_blankText {D S : Type} (env : Env D S) (gen : Nat → String)
    (rid : Nat) (action : JobAction) (st : SysState D S) (r : Resource)
    (t : Option String)
    (hfind : findResource st.resources rid = some r)
    (hext : extractText env r = .text t)
    (hblank : pyBlank t = true) :
    processResourceIngestion env gen rid action st =
      ⟨{ st with resources :=
            commitZeroChunkSuccess (commitChunkingStage st.resources rid) rid },
       [Event.progress rid .chunking 10, Event.progress rid .done 100],
       .ok ()⟩ := by
  simp only [processResourceIngestion, hfind, hext, hblank, if_true,
    List.cons_append, List.nil_append]

lemma run_emptyChunks {D S : Type} (env : Env D S) (gen : Nat → String)
    (rid : Nat) (action : JobAction) (st : SysState D S) (r : Resource)
    (t : Option String)
    (hfind : findResource st.resources rid = some r)
    (hext : extractText env r = .text t)
    (hblank : pyBlank t = false)
    (hchunks : chunk_text (env.splitText (t.getD "")) = []) :
    processResourceIngestion env gen rid action st =
      ⟨{ st with resources :=
            commitZeroChunkSuccess (commitChunkingStage st.resources rid) rid },
       [Event.progress rid .chunking 10, Event.progress rid .chunking 30,
        Event.progress rid .done 100],
       .ok ()⟩ := by
  simp only [processResourceIngestion, hfind, hext, hblank, hchunks,
    List.isEmpty_nil, if_true, Bool.false_eq_true, if_false, List.cons_append,
    List.nil_append]

lemma run_upsertRaised {D S : Type} (env : Env D S) (gen : Nat → String)
    (rid : Nat) (action : JobAction) (st : SysState D S) (r : Resource)
    (t : Option String) (msg : String)
    (hfind : findResource st.resources rid = some r)
    (hext : extractText env r = .text t)
    (hblank : pyBlank t = false)
    (hchunks : (chunk_text (env.splitText (t.getD ""))).isEmpty = false)
    (hfail : env.upsertOutcome = some msg) :
    processResourceIngestion env gen rid action st =
      ⟨{ resources :=
            commitErrorStatus
              (commitEmbeddingStage (commitChunkingStage st.resources rid) rid)
              rid msg
         contextChunks := st.contextChunks
         vectorStore :=
            if action == JobAction.updated then deleteByResource st.vectorStore rid
            else st.vectorStore },
       [Event.progress rid .chunking 10, Event.progress rid .chunking 30,
        Event.progress rid .embedding 50],
       .error msg⟩ := by
  simp only [processResourceIngestion, hfind, hext, hblank, hchunks, hfail,
    Bool.false_eq_true, if_false, List.cons_append, List.nil_append]

lemma run_success {D S : Type} (env : Env D S) (gen : Nat → String)
    (rid : Nat) (action : JobAction) (st : SysState D S) (r : Resource)
    (t : Option String)
    (hfind : findResource st.resources rid = some r)
    (hext : extractText env r = .text t)
    (hblank : pyBlank t = false)
    (hchunks : (chunk_text (env.splitText (t.getD ""))).isEmpty = false)
    (hok : env.upsertOutcome = none) :
    processResourceIngestion env gen rid action st =
      ⟨{ resources :=
            commitFinalSuccess
              (commitEmbeddingStage (commitChunkingStage st.resources rid) rid)
              rid
         contextChunks :=
            (if action == JobAction.updated then
              st.contextChunks.filter (fun c => !(c.resource_id == rid))
            else st.contextChunks) ++
              mkRows env gen rid (chunk_text (env.splitText (t.getD "")))
         vectorStore :=
            upsertPoints
              (if action == JobAction.updated then deleteByResource st.vectorStore rid
               else st.vectorStore)
              (mkPoints env gen rid (chunk_text (env.splitText (t.getD "")))) },
       [Event.progress rid .chunking 10, Event.progress rid .chunking 30,
        Event.progress rid .embedding 50, Event.progress rid .embedding 80,
        Event.progress rid .done 100],
       .ok ()⟩ := by
  simp only [processResourceIngestion, hfind, hext, hblank, hchunks, hok,
    Bool.false_eq_true, if_false, List.cons_append, List.nil_append]

/-! ### Concrete fixtures used by witnesses and counterexamples -/

/-- Trivial uuid supply for concrete runs. -/
def genU (i : Nat) : String := "uuid-" ++ toString i

/-- Second, disjoint uuid supply for concrete second runs. -/
def genW (i : Nat) : String := "wuid-" ++ toString i

/-- Environment whose file parser raises `NotImplementedError` (as
`file_service.parse_file` does for EPUB input). -/
def envContentErr : Env Unit Unit :=
  { parseFile := fun _ _ => .notImplementedError "EPUB parsing not yet implemented"
    splitText := fun s => [s]
    embedDense := fun _ => ()
    embedSparse := fun _ => ()
    sha256hex16 := fun _ => "hash"
    denseModelName := some "BAAI/bge-small-en-v1.5"
    upsertOutcome := none }

/-- Environment with working parser/splitter and healthy infrastructure. -/
def envOk : Env Unit Unit :=
  { parseFile := fun _ _ => .ok "parsed"
    splitText := fun s => [s]
    embedDense := fun _ => ()
    embedSparse := fun _ => ()
    sha256hex16 := fun _ => "hash"
    denseModelName := some "BAAI/bge-small-en-v1.5"
    upsertOutcome := none }

/-- Environment whose embed/upsert step raises (unreachable vector store). -/
def envInfraErr : Env Unit Unit :=
  { envOk with upsertOutcome := some "Qdrant unreachable" }

/-- A resource backed only by a file. -/
def rFile : Resource :=
  { resource_id := 1, file_hash := "fh", file_type := .epub,
    file_path := some "doc.epub" }

/-- A resource with inline text content. -/
def rInline : Resource :=
  { resource_id := 1, file_hash := "fh", content := some "hello world" }

/-- A resource with empty inline content and no backing file. -/
def rEmpty : Resource :=
  { resource_id := 1, file_hash := "fh2", content := some "" }

/-- A stale point left in Qdrant by an earlier ingestion of resource 1. -/
def oldPoint : VectorPoint Unit Unit :=
  { id := "old", dense := (), sparse := (), resource_id := 1, chunk_index := 0,
    page_number := none, text := "stale", token_count := some 1 }

/-- A resource with both inline content and a backing file. -/
def rInlineAndFile : Resource :=
  { resource_id := 1, file_hash := "fh", content := some "hello world",
    file_path := some "f.txt" }

/-- A resource with short inline content `"A"` and a backing file. -/
def rBoth : Resource :=
  { resource_id := 2, file_hash := "fh3", content := some "A",
    file_path := some "f.txt" }

/-- Environment whose file parser extracts `"B"`. -/
def envParseB : Env Unit Unit :=
  { envOk with parseFile := fun _ _ => .ok "B" }

/-- State holding just `rFile`. -/
def stFile : SysState Unit Unit :=
  { resources := [rFile], contextChunks := [], vectorStore := [] }

/-- State holding just `rInline`. -/
def stInline : SysState Unit Unit :=
  { resources := [rInline], contextChunks := [], vectorStore := [] }

/-- State holding `rEmpty` together with a stale vector point for it. -/
def stStale : SysState Unit Unit :=
  { resources := [rEmpty], contextChunks := [], vectorStore := [oldPoint] }

/-! ### C4 — terminal content errors -/

/-- **C4 (amended)** — when text extraction fails with one of the two handled
content-error exceptions (unsupported file type / missing file), the resource
is marked `sync_status = error` with the failure message in `last_error`, the
run returns without raising — so `_process_job` takes no retry action — but,
contrary to the claim, no failure Result event is emitted: the only event is
the initial `Progress(chunking, 10)`. -/
theorem content_error_marks_error_without_retry {D S : Type} (env : Env D S)
    (gen : Nat → String) (rid : Nat) (action : JobAction) (st : SysState D S)
    (r : Resource) (msg : String)
    (hfind : findResource st.resources rid = some r)
    (hext : extractText env r = .contentError msg) :
    (processResourceIngestion env gen rid action st).outcome = .ok () ∧
    (∀ q job, processJobQueueEffect q job
        (processResourceIngestion env gen rid action st).outcome = q) ∧
    findResource (processResourceIngestion env gen rid action st).state.resources
        rid =
      some { r with processing_stage := .chunking,
                    processing_hash := some r.file_hash,
                    sync_status := .error, last_error := some msg } ∧
    (processResourceIngestion env gen rid action st).events =
      [Event.progress rid .chunking 10] ∧
    (processResourceIngestion env gen rid action st).events.all
        (fun e => !e.isResult) = true := by
  rw [run_contentError env gen rid action st r msg hfind hext]
  refine ⟨rfl, fun q job => rfl, ?_, rfl, rfl⟩
  show findResource
      (commitErrorStatus (commitChunkingStage st.resources rid) rid msg) rid = _
  rw [findResource_commitErrorStatus, findResource_commitChunkingStage, hfind]
  rfl

/-- **C4 witness** — the amended theorem applied to a concrete EPUB-backed
resource. -/
theorem content_error_marks_error_without_retry_witness :
    (processResourceIngestion envContentErr genU 1 .created stFile).outcome =
        .ok () ∧
    (∀ q job, processJobQueueEffect q job
        (processResourceIngestion envContentErr genU 1 .created stFile).outcome
        = q) ∧
    findResource (processResourceIngestion envContentErr genU 1 .created
        stFile).state.resources 1 =
      some { rFile with processing_stage := .chunking,
                        processing_hash := some rFile.file_hash,
                        sync_status := .error,
                        last_error := some "EPUB parsing not yet implemented" } ∧
    (processResourceIngestion envContentErr genU 1 .created stFile).events =
      [Event.progress 1 .chunking 10] ∧
    (processResourceIngestion envContentErr genU 1 .created stFile).events.all
        (fun e => !e.isResult) = true :=
  content_error_marks_error_without_retry envContentErr genU 1 .created stFile
    rFile "EPUB parsing not yet implemented" (by rfl) (by rfl)

/-- **C4 counterexample** — on the concrete content-error run, no Result
event of any kind appears on the progress stream (the code's only
`broadcast_result` caller is nonexistent), refuting the claim's
"a failure Result event is emitted": the run does mark the resource `error`
and does not raise, yet its event list contains no Result event. -/
theorem content_error_emits_no_result_cex :
    (processResourceIngestion envContentErr genU 1 .created stFile).events.any
        Event.isResult = false ∧
    (findResource (processResourceIngestion envContentErr genU 1 .created
        stFile).state.resources 1).map Resource.sync_status =
      some SyncStatus.error ∧
    (processResourceIngestion envContentErr genU 1 .created stFile).outcome =
      .ok () := by
  refine ⟨by rfl, by rfl, by rfl⟩

/-! ### C5 — infrastructure errors propagate to the retry policy -/

/-- **C5 (amended)** — for every ingestion job in which an unhandled
exception occurs in the pipeline — an exception from parsing other than the
two handled content-error classes, or a failure in the
embedding/upserting step (the two places where the code's collaborators can
raise; chunking is a pure in-process loop and finalizing is the commit of
already-computed values) — the resource ends with `sync_status = error` and
the exception message in `last_error`, and the exception propagates to
`IngestionQueue._process_job`, triggering its retry policy; contrary to the
claim, no failure Result event is emitted on the progress stream. -/
theorem infra_error_propagates_to_queue {D S : Type} (env : Env D S)
    (gen : Nat → String) (rid : Nat) (action : JobAction) (st : SysState D S)
    (r : Resource) (msg : String)
    (hfind : findResource st.resources rid = some r)
    (hexc : extractText env r = .raised msg ∨
      ∃ t, extractText env r = .text t ∧ pyBlank t = false ∧
        (chunk_text (env.splitText (t.getD ""))).isEmpty = false ∧
        env.upsertOutcome = some msg) :
    (processResourceIngestion env gen rid action st).outcome = .error msg ∧
    (∀ q job, processJobQueueEffect q job
        (processResourceIngestion env gen rid action st).outcome =
      if job.retry_count < job.max_retries then
        q ++ [{ job with retry_count := job.retry_count + 1 }]
      else q) ∧
    (findResource (processResourceIngestion env gen rid action
        st).state.resources rid).map Resource.sync_status =
      some SyncStatus.error ∧
    (findResource (processResourceIngestion env gen rid action
        st).state.resources rid).map Resource.last_error = some (some msg) ∧
    (processResourceIngestion env gen rid action st).events.all
        (fun e => !e.isResult) = true := by
  have hqe : ∀ (q : List IngestionJob) (job : IngestionJob),
      processJobQueueEffect q job (.error msg) =
        if job.retry_count < job.max_retries then
          q ++ [{ job with retry_count := job.retry_count + 1 }]
        else q := by
    intro q job
    by_cases h : job.retry_count < job.max_retries
    · simp [processJobQueueEffect, retryDecision, h]
    · simp [processJobQueueEffect, retryDecision, h]
  rcases hexc with hraised | ⟨t, hext, hblank, hchunks, hfail⟩
  · rw [run_parseRaised env gen rid action st r msg hfind hraised]
    refine ⟨rfl, hqe, ?_, ?_, rfl⟩ <;>
    · show ((findResource
          (commitErrorStatus (commitChunkingStage st.resources rid) rid msg)
          rid).map _) = _
      rw [findResource_commitErrorStatus, findResource_commitChunkingStage,
        hfind]
      rfl
  · rw [run_upsertRaised env gen rid action st r t msg hfind hext hblank
      hchunks hfail]
    refine ⟨rfl, hqe, ?_, ?_, rfl⟩ <;>
    · show ((findResource
          (commitErrorStatus
            (commitEmbeddingStage (commitChunkingStage st.resources rid) rid)
            rid msg) rid).map _) = _
      rw [findResource_commitErrorStatus, findResource_commitEmbeddingStage,
        findResource_commitChunkingStage, hfind]
      rfl

/-- **C5 witness** — the amended theorem applied to a concrete run against an
unreachable vector store (the embed/upsert branch of the disjunction). -/
theorem infra_error_propagates_to_queue_witness :
    (processResourceIngestion envInfraErr genU 1 .created stInline).outcome =
        .error "Qdrant unreachable" ∧
    (∀ q job, processJobQueueEffect q job
        (processResourceIngestion envInfraErr genU 1 .created stInline).outcome =
      if job.retry_count < job.max_retries then
        q ++ [{ job with retry_count := job.retry_count + 1 }]
      else q) ∧
    (findResource (processResourceIngestion envInfraErr genU 1 .created
        stInline).state.resources 1).map Resource.sync_status =
      some SyncStatus.error ∧
    (findResource (processResourceIngestion envInfraErr genU 1 .created
        stInline).state.resources 1).map Resource.last_error =
      some (some "Qdrant unreachable") ∧
    (processResourceIngestion envInfraErr genU 1 .created stInline).events.all
        (fun e => !e.isResult) = true :=
  infra_error_propagates_to_queue envInfraErr genU 1 .created stInline rInline
    "Qdrant unreachable" (by rfl)
    (Or.inr ⟨some "hello world", by rfl, by decide, by rfl, by rfl⟩)

/-- **C5 counterexample** — the concrete failing run produces no Result event
at all, refuting the claim's "a failure Result event carrying the exception
message is emitted on the progress stream"; the rest of the claim (error
state, non-null `last_error`, propagation) does hold. -/
theorem infra_error_emits_no_result_cex :
    (processResourceIngestion envInfraErr genU 1 .created stInline).events.any
        Event.isResult = false ∧
    (findResource (processResourceIngestion envInfraErr genU 1 .created
        stInline).state.resources 1).map Resource.last_error =
      some (some "Qdrant unreachable") ∧
    (processResourceIngestion envInfraErr genU 1 .created stInline).outcome =
      .error "Qdrant unreachable" := by
  refine ⟨by rfl, by rfl, by rfl⟩

/-! ### C6 — empty content is success with zero chunks -/

/-- **C6 (amended)** — when the resource yields no extractable text (no text,
or whitespace-only text) or the chunker returns an empty list, the run
succeeds with zero chunks: `sync_status = synced`, `processing_stage = done`,
`indexed_hash = file_hash`, a `Progress(done, 100)` event is emitted and the
vector store and `context_chunks` are untouched; contrary to the claim, no
success Result event (with an empty chunk list or otherwise) is emitted. -/
theorem empty_content_zero_chunk_success {D S : Type} (env : Env D S)
    (gen : Nat → String) (rid : Nat) (action : JobAction) (st : SysState D S)
    (r : Resource) (t : Option String)
    (hfind : findResource st.resources rid = some r)
    (hext : extractText env r = .text t)
    (hempty : pyBlank t = true ∨
      (pyBlank t = false ∧ chunk_text (env.splitText (t.getD "")) = [])) :
    (processResourceIngestion env gen rid action st).outcome = .ok () ∧
    findResource (processResourceIngestion env gen rid action st).state.resources
        rid =
      some { r with processing_stage := .done,
                    processing_hash := some r.file_hash,
                    sync_status := .synced,
                    indexed_hash := some r.file_hash } ∧
    (processResourceIngestion env gen rid action st).state.vectorStore =
      st.vectorStore ∧
    (processResourceIngestion env gen rid action st).state.contextChunks =
      st.contextChunks ∧
    (processResourceIngestion env gen rid action st).events.getLast? =
      some (Event.progress rid .done 100) ∧
    (processResourceIngestion env gen rid action st).events.all
        (fun e => !e.isResult) = true := by
  have hres : findResource
      (commitZeroChunkSuccess (commitChunkingStage st.resources rid) rid) rid =
      some { r with processing_stage := .done,
                    processing_hash := some r.file_hash,
                    sync_status := .synced,
                    indexed_hash := some r.file_hash } := by
    rw [findResource_commitZeroChunkSuccess, findResource_commitChunkingStage,
      hfind]
    rfl
  rcases hempty with hblank | ⟨hnb, hchunks⟩
  · rw [run_blankText env gen rid action st r t hfind hext hblank]
    exact ⟨rfl, hres, rfl, rfl, rfl, rfl⟩
  · rw [run_emptyChunks env gen rid action st r t hfind hext hnb hchunks]
    exact ⟨rfl, hres, rfl, rfl, rfl, rfl⟩

/-- **C6 witness** — the amended theorem applied to a resource with
`content = ""` and no `file_path`. -/
theorem empty_content_zero_chunk_success_witness :
    (processResourceIngestion envOk genU 1 .created stStale).outcome = .ok () ∧
    findResource (processResourceIngestion envOk genU 1 .created
        stStale).state.resources 1 =
      some { rEmpty with processing_stage := .done,
                         processing_hash := some rEmpty.file_hash,
                         sync_status := .synced,
                         indexed_hash := some rEmpty.file_hash } ∧
    (processResourceIngestion envOk genU 1 .created stStale).state.vectorStore =
      stStale.vectorStore ∧
    (processResourceIngestion envOk genU 1 .created stStale).state.contextChunks =
      stStale.contextChunks ∧
    (processResourceIngestion envOk genU 1 .created stStale).events.getLast? =
      some (Event.progress 1 .done 100) ∧
    (processResourceIngestion envOk genU 1 .created stStale).events.all
        (fun e => !e.isResult) = true :=
  empty_content_zero_chunk_success envOk genU 1 .created stStale rEmpty none
    (by rfl) (by rfl) (Or.inl (by rfl))

/-- **C6 counterexample** — the concrete empty-content run ends
`done`/`synced` with a `Progress(done, 100)` event, but emits no success
Result event with an empty chunk list (no Result event exists at all),
refuting that conjunct of the claim. -/
theorem empty_content_emits_no_result_cex :
    (processResourceIngestion envOk genU 1 .created stStale).events.any
        Event.isResult = false ∧
    (findResource (processResourceIngestion envOk genU 1 .created
        stStale).state.resources 1).map Resource.sync_status =
      some SyncStatus.synced ∧
    (findResource (processResourceIngestion envOk genU 1 .created
        stStale).state.resources 1).map Resource.processing_stage =
      some ProcessingStage.done := by
  refine ⟨by rfl, by rfl, by rfl⟩

/-! ### C3 — Updated jobs replace the chunk set -/

lemma mkPoints_resource_id {D S : Type} (env : Env D S) (gen : Nat → String)
    (rid : Nat) (chunks : List TextChunk) (p : VectorPoint D S)
    (hp : p ∈ mkPoints env gen rid chunks) : p.resource_id = rid := by
  simp only [mkPoints, List.mem_map] at hp
  obtain ⟨q, _, hq⟩ := hp
  rw [← hq]

lemma filter_resource_id_deleteByResource {D S : Type}
    (store : List (VectorPoint D S)) (rid : Nat) :
    (deleteByResource store rid).filter (fun p => p.resource_id == rid) = [] := by
  rw [deleteByResource, List.filter_filter]
  simp

lemma filter_resource_id_upsertPoints_delete {D S : Type}
    (store pts : List (VectorPoint D S)) (rid : Nat)
    (hpts : ∀ p ∈ pts, p.resource_id = rid) :
    (upsertPoints (deleteByResource store rid) pts).filter
        (fun p => p.resource_id == rid) = pts := by
  rw [upsertPoints, List.filter_append]
  have h1 : ((deleteByResource store rid).filter
      (fun p => !((pts.map VectorPoint.id).contains p.id))).filter
        (fun p => p.resource_id == rid) = [] := by
    rw [List.filter_comm, filter_resource_id_deleteByResource, List.filter_nil]
  rw [h1, List.nil_append, List.filter_eq_self]
  intro p hp
  simp [hpts p hp]

/-- **C3 (amended)** — for an `action = Updated` job on an existing resource
whose extracted text is not blank and whose chunker output is nonempty, and
whose embed/upsert succeeds, every previously stored vector point with this
resource id is deleted before the new set is upserted, so the completed run's
vector store holds exactly the freshly built points for this resource (and
the run succeeds).  The deletion is skipped by the zero-chunk short-circuit:
an Updated job whose new content yields no chunks completes successfully
*without* deleting the old points (see the counterexample), so the claim
holds only when the new chunk set is nonempty. -/
theorem updated_job_replaces_chunk_set {D S : Type} (env : Env D S)
    (gen : Nat → String) (rid : Nat) (st : SysState D S)
    (r : Resource) (t : Option String)
    (hfind : findResource st.resources rid = some r)
    (hext : extractText env r = .text t)
    (hblank : pyBlank t = false)
    (hchunks : (chunk_text (env.splitText (t.getD ""))).isEmpty = false)
    (hok : env.upsertOutcome = none) :
    (processResourceIngestion env gen rid .updated st).outcome = .ok () ∧
    (processResourceIngestion env gen rid .updated st).state.vectorStore.filter
        (fun p => p.resource_id == rid) =
      mkPoints env gen rid (chunk_text (env.splitText (t.getD ""))) ∧
    (processResourceIngestion env gen rid .updated st).state.vectorStore =
      upsertPoints (deleteByResource st.vectorStore rid)
        (mkPoints env gen rid (chunk_text (env.splitText (t.getD "")))) := by
  rw [run_success env gen rid .updated st r t hfind hext hblank hchunks hok]
  refine ⟨rfl, ?_, by rfl⟩
  show (upsertPoints (if true = true then deleteByResource st.vectorStore rid
      else st.vectorStore) _).filter _ = _
  rw [if_pos rfl]
  exact filter_resource_id_upsertPoints_delete st.vectorStore _ rid
    (fun p hp => mkPoints_resource_id env gen rid _ p hp)

/-- **C3 witness** — the amended theorem applied to a concrete Updated run
over a store holding a stale point for the resource. -/
theorem updated_job_replaces_chunk_set_witness :
    (processResourceIngestion envOk genU 1 .updated
        { resources := [rInline], contextChunks := [],
          vectorStore := [oldPoint] }).outcome = .ok () ∧
    (processResourceIngestion envOk genU 1 .updated
        { resources := [rInline], contextChunks := [],
          vectorStore := [oldPoint] }).state.vectorStore.filter
        (fun p => p.resource_id == 1) =
      mkPoints envOk genU 1 (chunk_text (envOk.splitText "hello world")) ∧
    (processResourceIngestion envOk genU 1 .updated
        { resources := [rInline], contextChunks := [],
          vectorStore := [oldPoint] }).state.vectorStore =
      upsertPoints (deleteByResource [oldPoint] 1)
        (mkPoints envOk genU 1 (chunk_text (envOk.splitText "hello world"))) :=
  updated_job_replaces_chunk_set envOk genU 1
    { resources := [rInline], contextChunks := [], vectorStore := [oldPoint] }
    rInline (some "hello world") (by rfl) (by rfl) (by decide) (by rfl) (by rfl)

/-- **C3 counterexample** — an `Updated` job on a resource whose new content
is empty completes successfully but leaves the stale vector point for the
resource in the store: the claim's "after the job completes successfully the
vector store holds exactly the new chunk set … with no leftover points"
fails (the new chunk set is empty, the old point remains). -/
theorem updated_blank_keeps_stale_points_cex :
    (processResourceIngestion envOk genU 1 .updated stStale).outcome = .ok () ∧
    (processResourceIngestion envOk genU 1 .updated stStale).state.vectorStore =
      [oldPoint] ∧
    oldPoint.resource_id = 1 ∧
    (findResource (processResourceIngestion envOk genU 1 .updated
        stStale).state.resources 1).map Resource.sync_status =
      some SyncStatus.synced := by
  refine ⟨by rfl, by rfl, by rfl, by rfl⟩

/-! ### C9 — inline content vs. backing file -/

/-- **C9 (amended)** — the parse step does not concatenate: non-empty inline
`content` is used as the chunker input by itself and the backing file is not
consulted (`if resource.content: … elif resource.file_path: …`); the file is
parsed only when inline content is `None` or empty; with neither source the
text is `None`.  Under a successful run the `context_chunks` rows written for
a resource with non-empty inline content come from splitting exactly that
inline content. -/
theorem inline_content_takes_precedence {D S : Type} (env : Env D S)
    (gen : Nat → String) (rid : Nat) (action : JobAction) (st : SysState D S)
    (r : Resource) (c : String)
    (hc : r.content = some c) (hne : c ≠ "") :
    extractText env r = .text (some c) ∧
    (∀ tt, pyTruthy r.content = false → pyTruthy r.file_path = true →
      env.parseFile (r.file_path.getD "") r.file_type = .ok tt →
      extractText env r = .text (some tt)) ∧
    (findResource st.resources rid = some r →
      pyBlank (some c) = false →
      (chunk_text (env.splitText c)).isEmpty = false →
      env.upsertOutcome = none →
      (processResourceIngestion env gen rid action st).state.contextChunks =
        (if action == JobAction.updated then
          st.contextChunks.filter (fun ch => !(ch.resource_id == rid))
        else st.contextChunks) ++
          mkRows env gen rid (chunk_text (env.splitText c))) := by
  have htr : pyTruthy r.content = true := by
    rw [hc]
    simp [pyTruthy, hne]
  have hextc : extractText env r = .text (some c) := by
    rw [extractText, if_pos htr, hc]
  refine ⟨hextc, ?_, ?_⟩
  · intro tt hfalse _ _
    rw [htr] at hfalse
    exact absurd hfalse (by simp)
  · intro hfind hblank hchunks hok
    rw [run_success env gen rid action st r (some c) hfind hextc hblank hchunks
      hok]
    rfl

/-- **C9 witness** — the amended theorem applied to a resource holding both
inline content and a parseable backing file. -/
theorem inline_content_takes_precedence_witness :
    extractText envOk rInlineAndFile = .text (some "hello world") ∧
    (∀ tt, pyTruthy rInlineAndFile.content = false →
      pyTruthy rInlineAndFile.file_path = true →
      envOk.parseFile (rInlineAndFile.file_path.getD "")
        rInlineAndFile.file_type = .ok tt →
      extractText envOk rInlineAndFile = .text (some tt)) ∧
    (findResource [rInlineAndFile] 1 = some rInlineAndFile →
      pyBlank (some "hello world") = false →
      (chunk_text (envOk.splitText "hello world")).isEmpty = false →
      envOk.upsertOutcome = none →
      (processResourceIngestion envOk genU 1 .created
          { resources := [rInlineAndFile], contextChunks := [],
            vectorStore := [] }).state.contextChunks =
        (if JobAction.created == JobAction.updated then
          ([] : List ContextChunkRow).filter (fun ch => !(ch.resource_id == 1))
        else []) ++
          mkRows envOk genU 1 (chunk_text (envOk.splitText "hello world"))) :=
  inline_content_takes_precedence envOk genU 1 .created
    { resources := [rInlineAndFile], contextChunks := [], vectorStore := [] }
    rInlineAndFile "hello world" (by rfl) (by decide)

/-- **C9 counterexample** — a resource with inline content `"A"` and a
backing file whose parse yields `"B"`: the text handed on is `"A"`, not the
concatenation `"AB"`, refuting the claim that the chunker input is the
concatenation of inline content and extracted file text. -/
theorem content_not_concatenated_cex :
    envParseB.parseFile "f.txt" rBoth.file_type = .ok "B" ∧
    rBoth.content = some "A" ∧
    extractText envParseB rBoth = .text (some "A") ∧
    extractText envParseB rBoth ≠ .text (some ("A" ++ "B")) := by
  refine ⟨by rfl, by rfl, by rfl, by decide⟩

/-! ### C10 — Created runs delete nothing and append fresh points -/

lemma map_fst_enum {α β : Type} (l : List α) (f : Nat → β) :
    l.enum.map (fun x => f x.1) = (List.range l.length).map f := by
  rw [show (fun x : Nat × α => f x.1) = f ∘ Prod.fst from rfl, ← List.map_map,
    List.enum_map_fst]

lemma mkPoints_map_id {D S : Type} (env : Env D S) (gen : Nat → String)
    (rid : Nat) (chunks : List TextChunk) :
    (mkPoints env gen rid chunks).map VectorPoint.id =
      (List.range chunks.length).map gen := by
  rw [mkPoints, List.map_map]
  exact map_fst_enum chunks gen

lemma upsertPoints_of_fresh {D S : Type} (store pts : List (VectorPoint D S))
    (h : ∀ p ∈ store, p.id ∉ pts.map VectorPoint.id) :
    upsertPoints store pts = store ++ pts := by
  rw [upsertPoints]
  congr 1
  apply List.filter_eq_self.mpr
  intro p hp
  simpa using h p hp

lemma extractText_congr {D S : Type} (env : Env D S) (r r' : Resource)
    (h1 : r'.content = r.content) (h2 : r'.file_path = r.file_path)
    (h3 : r'.file_type = r.file_type) :
    extractText env r' = extractText env r := by
  rw [extractText, extractText, h1, h2, h3]

/-- **C10** — a `Created` run deletes nothing: it appends the freshly built
points to the vector store and the freshly built rows to `context_chunks`
while every pre-existing point and row survives; each upserted point's id is
the freshly drawn uuid for its position; startup recovery enqueues
`action = Created` for non-deleted `pending`/`error` resources; and a second
`Created` run over the same (unchanged-content) resource with fresh uuids
appends a second copy of each chunk's point instead of replacing the first. -/
theorem created_run_appends_duplicate_points {D S : Type} (env : Env D S)
    (gen gen2 : Nat → String) (rid : Nat) (st : SysState D S)
    (r : Resource) (t : Option String)
    (hfind : findResource st.resources rid = some r)
    (hext : extractText env r = .text t)
    (hblank : pyBlank t = false)
    (hchunks : (chunk_text (env.splitText (t.getD ""))).isEmpty = false)
    (hok : env.upsertOutcome = none)
    (hfresh1 : ∀ p ∈ st.vectorStore,
      ∀ i < (chunk_text (env.splitText (t.getD ""))).length, p.id ≠ gen i)
    (hfresh2 : ∀ p ∈ st.vectorStore ++
        mkPoints env gen rid (chunk_text (env.splitText (t.getD ""))),
      ∀ i < (chunk_text (env.splitText (t.getD ""))).length, p.id ≠ gen2 i) :
    (processResourceIngestion env gen rid .created st).state.vectorStore =
      st.vectorStore ++
        mkPoints env gen rid (chunk_text (env.splitText (t.getD ""))) ∧
    (processResourceIngestion env gen rid .created st).state.contextChunks =
      st.contextChunks ++
        mkRows env gen rid (chunk_text (env.splitText (t.getD ""))) ∧
    (mkPoints env gen rid (chunk_text (env.splitText (t.getD "")))).map
        VectorPoint.id =
      (List.range (chunk_text (env.splitText (t.getD ""))).length).map gen ∧
    (processResourceIngestion env gen2 rid .created
        (processResourceIngestion env gen rid .created st).state).state.vectorStore =
      st.vectorStore ++
        mkPoints env gen rid (chunk_text (env.splitText (t.getD ""))) ++
        mkPoints env gen2 rid (chunk_text (env.splitText (t.getD ""))) ∧
    (∀ r0 : Resource, r0.is_deleted = false →
      (r0.sync_status = .pending ∨ r0.sync_status = .error) →
      (rebuildPendingQueue [r0]).map IngestionJob.action = [JobAction.created]) := by
  have hfresh1' : ∀ p ∈ st.vectorStore, p.id ∉
      (mkPoints env gen rid (chunk_text (env.splitText (t.getD "")))).map
        VectorPoint.id := by
    intro p hp hmem
    rw [mkPoints_map_id] at hmem
    obtain ⟨i, hi, hgi⟩ := List.mem_map.mp hmem
    exact hfresh1 p hp i (List.mem_range.mp hi) hgi.symm
  rw [run_success env gen rid .created st r t hfind hext hblank hchunks hok]
  have hupsert1 : upsertPoints st.vectorStore
      (mkPoints env gen rid (chunk_text (env.splitText (t.getD "")))) =
      st.vectorStore ++
        mkPoints env gen rid (chunk_text (env.splitText (t.getD ""))) :=
    upsertPoints_of_fresh _ _ hfresh1'
  refine ⟨hupsert1, rfl, mkPoints_map_id env gen rid _, ?_, ?_⟩
  · -- second Created run over the post-run state
    have hfind2 : findResource
        (commitFinalSuccess
          (commitEmbeddingStage (commitChunkingStage st.resources rid) rid)
          rid) rid =
        some { r with processing_stage := .done,
                      processing_hash := some r.file_hash,
                      sync_status := .synced,
                      indexed_hash := some r.file_hash,
                      last_error := none } := by
      rw [findResource_commitFinalSuccess, findResource_commitEmbeddingStage,
        findResource_commitChunkingStage, hfind]
      rfl
    have hext2 : extractText env
        { r with processing_stage := .done,
                 processing_hash := some r.file_hash,
                 sync_status := .synced,
                 indexed_hash := some r.file_hash,
                 last_error := none } = .text t := by
      rw [extractText_congr env r
        { r with processing_stage := .done,
                 processing_hash := some r.file_hash,
                 sync_status := .synced,
                 indexed_hash := some r.file_hash,
                 last_error := none } rfl rfl rfl]
      exact hext
    rw [run_success env gen2 rid .created _ _ t hfind2 hext2 hblank hchunks hok]
    show upsertPoints (upsertPoints st.vectorStore _) _ = _
    rw [hupsert1]
    apply upsertPoints_of_fresh
    intro p hp hmem
    rw [mkPoints_map_id] at hmem
    obtain ⟨i, hi, hgi⟩ := List.mem_map.mp hmem
    exact hfresh2 p hp i (List.mem_range.mp hi) hgi.symm
  · intro r0 hdel hstat
    rcases hstat with h | h <;>
      simp [rebuildPendingQueue, h, hdel, List.filter]

/-- **C10 witness** — the theorem applied to two consecutive concrete
`Created` runs over the same inline resource with disjoint uuid supplies. -/
theorem created_run_appends_duplicate_points_witness :
    (processResourceIngestion envOk genU 1 .created stInline).state.vectorStore =
      stInline.vectorStore ++
        mkPoints envOk genU 1 (chunk_text (envOk.splitText "hello world")) ∧
    (processResourceIngestion envOk genU 1 .created stInline).state.contextChunks =
      stInline.contextChunks ++
        mkRows envOk genU 1 (chunk_text (envOk.splitText "hello world")) ∧
    (mkPoints envOk genU 1 (chunk_text (envOk.splitText "hello world"))).map
        VectorPoint.id =
      (List.range (chunk_text (envOk.splitText "hello world")).length).map genU ∧
    (processResourceIngestion envOk genW 1 .created
        (processResourceIngestion envOk genU 1 .created
          stInline).state).state.vectorStore =
      stInline.vectorStore ++
        mkPoints envOk genU 1 (chunk_text (envOk.splitText "hello world")) ++
        mkPoints envOk genW 1 (chunk_text (envOk.splitText "hello world")) ∧
    (∀ r0 : Resource, r0.is_deleted = false →
      (r0.sync_status = .pending ∨ r0.sync_status = .error) →
      (rebuildPendingQueue [r0]).map IngestionJob.action = [JobAction.created]) :=
  created_run_appends_duplicate_points envOk genU genW 1 stInline rInline
    (some "hello world") (by rfl) (by rfl) (by decide) (by rfl) (by rfl)
    (by decide) (by decide)

/-! ### C8 — startup recovery scan -/

/-- A dirty resource awaiting recovery. -/
def rRecDirty : Resource :=
  { resource_id := 10, file_hash := "a", sync_status := .dirty }

/-- A pending resource awaiting recovery. -/
def rRecPending : Resource :=
  { resource_id := 11, file_hash := "b", sync_status := .pending }

/-- A synced resource (not selected by recovery). -/
def rRecSynced : Resource :=
  { resource_id := 12, file_hash := "c", sync_status := .synced }

/-- A soft-deleted pending resource (filtered out by `is_deleted == False`). -/
def rRecDeleted : Resource :=
  { resource_id := 13, file_hash := "d", sync_status := .pending,
    is_deleted := true }

/-- The `WHERE` clause of `rebuild_pending_queue`:
`sync_status IN (pending, dirty, error) AND is_deleted = False`. -/
def needsRecovery (r : Resource) : Bool :=
  (r.sync_status == .pending || r.sync_status == .dirty
    || r.sync_status == .error) && !r.is_deleted

/-- The job `rebuild_pending_queue` enqueues for a selected resource. -/
def mkRecoveryJob (r : Resource) : IngestionJob :=
  { job_type := JobType.ingestResource
    source_id := r.resource_id
    action := if r.sync_status == .dirty then JobAction.updated
              else JobAction.created }

lemma rebuildPendingQueue_eq (rs : List Resource) :
    rebuildPendingQueue rs = (rs.filter needsRecovery).map mkRecoveryJob := rfl

lemma countP_recovery (rs : List Resource) (r : Resource)
    (hnd : (rs.map Resource.resource_id).Nodup) (hr : r ∈ rs) :
    rs.countP (fun r0 =>
        (r0.resource_id == r.resource_id) && needsRecovery r0) =
      if needsRecovery r then 1 else 0 := by
  induction rs with
  | nil => cases hr
  | cons a as ih =>
    rw [List.map_cons, List.nodup_cons] at hnd
    rw [List.countP_cons]
    rcases List.mem_cons.mp hr with rfl | hmem
    · have hzero : as.countP (fun r0 =>
          (r0.resource_id == r.resource_id) && needsRecovery r0) = 0 := by
        apply List.countP_eq_zero.mpr
        intro b hb
        have hne : b.resource_id ≠ r.resource_id := by
          intro he
          exact hnd.1 (he ▸ List.mem_map_of_mem Resource.resource_id hb)
        simp [hne]
      rw [hzero]
      by_cases hp : needsRecovery r <;> simp [hp]
    · have hne : a.resource_id ≠ r.resource_id := by
        intro he
        exact hnd.1 (he.symm ▸ List.mem_map_of_mem Resource.resource_id hmem)
      rw [ih hnd.2 hmem]
      simp [hne]

/-- **C8 (amended)** — the startup recovery scan enqueues exactly one
ingestion job per **non-deleted** resource whose `sync_status` is `pending`,
`dirty` or `error`, with `action = Updated` when the status is `dirty` and
`action = Created` otherwise (with the job-field defaults `retry_count = 0`,
`max_retries = 3`); resources in any other status — or soft-deleted
resources, which the claim overlooks — get no job. -/
theorem rebuild_pending_queue_selection (rs : List Resource)
    (hnd : (rs.map Resource.resource_id).Nodup) :
    (∀ r ∈ rs, ((rebuildPendingQueue rs).filter
        (fun j => j.source_id == r.resource_id)).length =
      if needsRecovery r then 1 else 0) ∧
    (∀ j ∈ rebuildPendingQueue rs, j.job_type = JobType.ingestResource ∧
      j.retry_count = 0 ∧ j.max_retries = 3 ∧
      ∃ r0 ∈ rs, needsRecovery r0 = true ∧ r0.resource_id = j.source_id ∧
        j.action = (if r0.sync_status == SyncStatus.dirty then JobAction.updated
                    else JobAction.created)) := by
  constructor
  · intro r hr
    rw [rebuildPendingQueue_eq, ← List.countP_eq_length_filter,
      List.countP_map, List.countP_filter]
    simp only [Function.comp_def, mkRecoveryJob]
    exact countP_recovery rs r hnd hr
  · intro j hj
    rw [rebuildPendingQueue_eq, List.mem_map] at hj
    obtain ⟨r0, hr0, hjr⟩ := hj
    rw [List.mem_filter] at hr0
    exact ⟨by rw [← hjr]; rfl, by rw [← hjr]; rfl, by rw [← hjr]; rfl,
      r0, hr0.1, hr0.2, by rw [← hjr]; rfl, by rw [← hjr]; rfl⟩

/-- **C8 witness** — the amended theorem applied to a four-resource table
covering the dirty/pending/synced/deleted cases. -/
theorem rebuild_pending_queue_selection_witness :
    (∀ r ∈ [rRecDirty, rRecPending, rRecSynced, rRecDeleted],
      ((rebuildPendingQueue
          [rRecDirty, rRecPending, rRecSynced, rRecDeleted]).filter
        (fun j => j.source_id == r.resource_id)).length =
      if needsRecovery r then 1 else 0) ∧
    (∀ j ∈ rebuildPendingQueue [rRecDirty, rRecPending, rRecSynced, rRecDeleted],
      j.job_type = JobType.ingestResource ∧
      j.retry_count = 0 ∧ j.max_retries = 3 ∧
      ∃ r0 ∈ [rRecDirty, rRecPending, rRecSynced, rRecDeleted],
        needsRecovery r0 = true ∧ r0.resource_id = j.source_id ∧
        j.action = (if r0.sync_status == SyncStatus.dirty then JobAction.updated
                    else JobAction.created)) :=
  rebuild_pending_queue_selection
    [rRecDirty, rRecPending, rRecSynced, rRecDeleted] (by decide)

/-- **C8 counterexample** — a soft-deleted resource with
`sync_status = pending` receives no recovery job, refuting the claim that
recovery enqueues exactly one job per resource with
`sync_status ∈ {pending, dirty, error}`. -/
theorem rebuild_skips_deleted_pending_cex :
    rRecDeleted.sync_status = SyncStatus.pending ∧
    rebuildPendingQueue [rRecDeleted] = [] := by
  refine ⟨by rfl, by rfl⟩

/-! ## Hybrid search

`app/api/search.py` delegates to `vector_service.search_hybrid`, but the
`VectorService` in this snapshot has no `search_hybrid` method — the
implementation is missing from the sources, only its caller exists.  The
definitions below are therefore modelled from spec §4.7 and settle C1 against
that model.  Scores are modelled over `ℚ` (a linearly ordered stand-in for the
adapter's float scores; the merge only compares and copies scores). -/

/-- Modelled from the spec: a retrieval hit as returned by the Vector Store
Adapter (`(id, score, payload)` projected to the payload fields the merge
uses) and as carried by `SearchResult`. -/
structure Hit where
  resource_id : Nat
  chunk_index : Nat
  text : String
  page_number : Option Nat := none
  score : ℚ
deriving DecidableEq, Repr

/-- The dedup key of the merge: `(resource_id, chunk_index)`. -/
def hitKey (h : Hit) : Nat × Nat := (h.resource_id, h.chunk_index)

/-- Modelled from the spec: one step of the dedup merge — the dictionary
update "if the key is present keep the higher-scoring hit, else append". -/
def insertMax : List Hit → Hit → List Hit
  | [], h => [h]
  | a :: as, h =>
    if hitKey a = hitKey h then (if h.score > a.score then h else a) :: as
    else a :: insertMax as h

/-- Modelled from the spec: deduplicate a hit list on `(resource_id,
chunk_index)`, keeping the higher of the scores when a chunk appears more
than once. -/
def mergeDedup (hits : List Hit) : List Hit := hits.foldl insertMax []

/-- Descending-score order on hits. -/
def hitGE (a b : Hit) : Prop := b.score ≤ a.score

instance : DecidableRel hitGE :=
  fun a b => inferInstanceAs (Decidable (b.score ≤ a.score))

instance : IsTotal Hit hitGE := ⟨fun a b => le_total b.score a.score⟩

instance : IsTrans Hit hitGE := ⟨fun _ _ _ hab hbc => le_trans hbc hab⟩

/-- Modelled from the spec: the two query embedders and the Vector Store
Adapter search (named vector, query vector, optional scope filter, limit). -/
structure SearchEnv (QD QS : Type) where
  embedDenseQuery : String → QD
  embedSparseQuery : String → QS
  denseSearch : QD → Option (List Nat) → Nat → List Hit
  sparseSearch : QS → Option (List Nat) → Nat → List Hit

/-- Modelled from the spec: `VectorService.search_hybrid` (absent from the
snapshot, only called from `app/api/search.py`): embed the query with both
models, run two independent top-`limit` retrievals (optionally filtered to
the scope resource ids), deduplicate on `(resource_id, chunk_index)` keeping
the higher score, sort descending by merged score, truncate to `limit`. -/
def search_hybrid {QD QS : Type} (env : SearchEnv QD QS) (query : String)
    (scope : Option (List Nat)) (limit : Nat) : List Hit :=
  (List.insertionSort hitGE
    (mergeDedup
      (env.denseSearch (env.embedDenseQuery query) scope limit ++
        env.sparseSearch (env.embedSparseQuery query) scope limit))).take limit

/-- Maximum-score combination of two optional scores. -/
def omax : Option ℚ → Option ℚ → Option ℚ
  | none, b => b
  | some a, none => some a
  | some a, some b => some (max a b)

/-- The best score among the hits with a given key, `none` if the key is
absent. -/
def maxScore? (hits : List Hit) (k : Nat × Nat) : Option ℚ :=
  hits.foldr (fun h acc =>
    if hitKey h = k then omax (some h.score) acc else acc) none

lemma omax_none_right (a : Option ℚ) : omax a none = a := by
  cases a <;> rfl

lemma omax_assoc (a b c : Option ℚ) :
    omax (omax a b) c = omax a (omax b c) := by
  cases a <;> cases b <;> cases c <;> simp [omax, max_assoc]

lemma omax_comm (a b : Option ℚ) : omax a b = omax b a := by
  cases a <;> cases b <;> simp [omax, max_comm]

lemma maxScore?_cons (h : Hit) (hs : List Hit) (k : Nat × Nat) :
    maxScore? (h :: hs) k =
      if hitKey h = k then omax (some h.score) (maxScore? hs k)
      else maxScore? hs k := rfl

lemma maxScore?_append (l1 l2 : List Hit) (k : Nat × Nat) :
    maxScore? (l1 ++ l2) k = omax (maxScore? l1 k) (maxScore? l2 k) := by
  induction l1 with
  | nil => rfl
  | cons a l1 ih =>
    rw [List.cons_append, maxScore?_cons, maxScore?_cons, ih]
    by_cases hk : hitKey a = k
    · rw [if_pos hk, if_pos hk, omax_assoc]
    · rw [if_neg hk, if_neg hk]

/-- The keys of a merged list are pairwise distinct. -/
def KeysNodup (l : List Hit) : Prop :=
  l.Pairwise (fun a b => hitKey a ≠ hitKey b)

lemma insertMax_mem (acc : List Hit) (h x : Hit)
    (hx : x ∈ insertMax acc h) : x ∈ acc ∨ x = h := by
  induction acc with
  | nil =>
    rw [insertMax] at hx
    exact Or.inr (List.mem_singleton.mp hx)
  | cons a as ih =>
    rw [insertMax] at hx
    by_cases heq : hitKey a = hitKey h
    · rw [if_pos heq] at hx
      rcases List.mem_cons.mp hx with hw | hmem
      · by_cases hs : h.score > a.score
        · rw [if_pos hs] at hw
          exact Or.inr hw
        · rw [if_neg hs] at hw
          exact Or.inl (hw ▸ List.mem_cons_self a as)
      · exact Or.inl (List.mem_cons_of_mem a hmem)
    · rw [if_neg heq] at hx
      rcases List.mem_cons.mp hx with rfl | hmem
      · exact Or.inl (List.mem_cons_self x as)
      · rcases ih hmem with hacc | hh
        · exact Or.inl (List.mem_cons_of_mem a hacc)
        · exact Or.inr hh

lemma hitKey_winner (a h : Hit) (heq : hitKey a = hitKey h) :
    hitKey (if h.score > a.score then h else a) = hitKey a := by
  by_cases hs : h.score > a.score
  · rw [if_pos hs, heq]
  · rw [if_neg hs]

lemma insertMax_keysNodup (acc : List Hit) (h : Hit) (hnd : KeysNodup acc) :
    KeysNodup (insertMax acc h) := by
  induction acc with
  | nil => simp [insertMax, KeysNodup]
  | cons a as ih =>
    rw [KeysNodup, List.pairwise_cons] at hnd
    rw [insertMax]
    by_cases heq : hitKey a = hitKey h
    · rw [if_pos heq, KeysNodup, List.pairwise_cons]
      refine ⟨fun b hb => ?_, hnd.2⟩
      rw [hitKey_winner a h heq]
      exact hnd.1 b hb
    · rw [if_neg heq, KeysNodup, List.pairwise_cons]
      refine ⟨fun b hb => ?_, ih hnd.2⟩
      rcases insertMax_mem as h b hb with hmem | rfl
      · exact hnd.1 b hmem
      · exact heq

lemma insertMax_hasKey (acc : List Hit) (h : Hit) (k : Nat × Nat) :
    (∃ y ∈ insertMax acc h, hitKey y = k) ↔
      (∃ y ∈ acc, hitKey y = k) ∨ hitKey h = k := by
  induction acc with
  | nil => simp [insertMax]
  | cons a as ih =>
    rw [insertMax]
    by_cases heq : hitKey a = hitKey h
    · rw [if_pos heq]
      constructor
      · rintro ⟨y, hy, rfl⟩
        rcases List.mem_cons.mp hy with rfl | hmem
        · exact Or.inl ⟨a, List.mem_cons_self a as, (hitKey_winner a h heq).symm⟩
        · exact Or.inl ⟨y, List.mem_cons_of_mem a hmem, rfl⟩
      · rintro (⟨y, hy, rfl⟩ | hk)
        · rcases List.mem_cons.mp hy with rfl | hmem
          · exact ⟨_, List.mem_cons_self _ as, hitKey_winner y h heq⟩
          · exact ⟨y, List.mem_cons_of_mem _ hmem, rfl⟩
        · exact ⟨_, List.mem_cons_self _ as, by rw [hitKey_winner a h heq, heq, hk]⟩
    · rw [if_neg heq]
      constructor
      · rintro ⟨y, hy, rfl⟩
        rcases List.mem_cons.mp hy with rfl | hmem
        · exact Or.inl ⟨y, List.mem_cons_self y as, rfl⟩
        · rcases ih.mp ⟨y, hmem, rfl⟩ with ⟨z, hz, hzk⟩ | hk
          · exact Or.inl ⟨z, List.mem_cons_of_mem a hz, hzk⟩
          · exact Or.inr hk
      · rintro (⟨y, hy, rfl⟩ | hk)
        · rcases List.mem_cons.mp hy with rfl | hmem
          · exact ⟨y, List.mem_cons_self y _, rfl⟩
          · obtain ⟨z, hz, hzk⟩ := ih.mpr (Or.inl ⟨y, hmem, rfl⟩)
            exact ⟨z, List.mem_cons_of_mem a hz, hzk⟩
        · obtain ⟨z, hz, hzk⟩ := ih.mpr (Or.inr hk)
          exact ⟨z, List.mem_cons_of_mem a hz, hzk⟩

lemma insertMax_maxScore (acc : List Hit) (h : Hit) (k : Nat × Nat) :
    maxScore? (insertMax acc h) k =
      omax (maxScore? acc k) (maxScore? [h] k) := by
  induction acc with
  | nil => rfl
  | cons a as ih =>
    rw [insertMax]
    by_cases heq : hitKey a = hitKey h
    · rw [if_pos heq, maxScore?_cons, maxScore?_cons, hitKey_winner a h heq]
      by_cases hk : hitKey a = k
      · rw [if_pos hk, if_pos hk]
        have hwin : (if h.score > a.score then h else a).score =
            max a.score h.score := by
          rcases le_or_lt h.score a.score with hle | hlt
          · rw [if_neg (not_lt.mpr hle), max_eq_left hle]
          · rw [if_pos hlt, max_eq_right hlt.le]
        have hsingle : maxScore? [h] k = some h.score := by
          rw [maxScore?_cons, if_pos (heq.symm.trans hk)]
          rfl
        rw [hwin, hsingle]
        calc omax (some (max a.score h.score)) (maxScore? as k)
            = omax (omax (some a.score) (some h.score)) (maxScore? as k) := rfl
          _ = omax (some a.score) (omax (some h.score) (maxScore? as k)) :=
              omax_assoc _ _ _
          _ = omax (some a.score) (omax (maxScore? as k) (some h.score)) := by
              rw [omax_comm (some h.score) (maxScore? as k)]
          _ = omax (omax (some a.score) (maxScore? as k)) (some h.score) :=
              (omax_assoc _ _ _).symm
      · rw [if_neg hk, if_neg hk]
        have hsingle : maxScore? [h] k = none := by
          rw [maxScore?_cons, if_neg (fun hc => hk (heq.trans hc))]
          rfl
        rw [hsingle, omax_none_right]
    · rw [if_neg heq, maxScore?_cons, maxScore?_cons, ih]
      by_cases hk : hitKey a = k
      · rw [if_pos hk, if_pos hk, omax_assoc]
      · rw [if_neg hk, if_neg hk]

lemma maxScore?_eq_none (l : List Hit) (k : Nat × Nat)
    (h : ∀ y ∈ l, hitKey y ≠ k) : maxScore? l k = none := by
  induction l with
  | nil => rfl
  | cons a as ih =>
    rw [maxScore?_cons, if_neg (h a (List.mem_cons_self a as))]
    exact ih (fun y hy => h y (List.mem_cons_of_mem a hy))

lemma maxScore?_self_of_nodup (l : List Hit) (hnd : KeysNodup l) (x : Hit)
    (hx : x ∈ l) : maxScore? l (hitKey x) = some x.score := by
  induction l with
  | nil => cases hx
  | cons a as ih =>
    rw [KeysNodup, List.pairwise_cons] at hnd
    rcases List.mem_cons.mp hx with rfl | hmem
    · rw [maxScore?_cons, if_pos rfl,
        maxScore?_eq_none as _ (fun y hy => (hnd.1 y hy).symm), omax_none_right]
    · rw [maxScore?_cons, if_neg (hnd.1 x hmem), ih hnd.2 hmem]

lemma foldl_insertMax_spec (hits : List Hit) (acc : List Hit)
    (hnd : KeysNodup acc) :
    KeysNodup (hits.foldl insertMax acc) ∧
    (∀ x ∈ hits.foldl insertMax acc, x ∈ acc ∨ x ∈ hits) ∧
    (∀ x ∈ hits.foldl insertMax acc,
      maxScore? (acc ++ hits) (hitKey x) = some x.score) ∧
    (∀ k, (∃ y ∈ hits.foldl insertMax acc, hitKey y = k) ↔
      ((∃ y ∈ acc, hitKey y = k) ∨ ∃ y ∈ hits, hitKey y = k)) := by
  induction hits generalizing acc with
  | nil =>
    refine ⟨hnd, fun x hx => Or.inl hx, fun x hx => ?_, fun k => by simp⟩
    rw [List.append_nil]
    exact maxScore?_self_of_nodup acc hnd x hx
  | cons h hs ih =>
    obtain ⟨ihnd, ihmem, ihmax, ihkey⟩ :=
      ih (insertMax acc h) (insertMax_keysNodup acc h hnd)
    have htrans : ∀ k, maxScore? (acc ++ h :: hs) k =
        maxScore? (insertMax acc h ++ hs) k := by
      intro k
      rw [maxScore?_append, maxScore?_append, insertMax_maxScore,
        show (h :: hs : List Hit) = [h] ++ hs from rfl, maxScore?_append,
        omax_assoc]
    refine ⟨ihnd, ?_, ?_, ?_⟩
    · intro x hx
      rcases ihmem x hx with hmem | hmem
      · rcases insertMax_mem acc h x hmem with hacc | rfl
        · exact Or.inl hacc
        · exact Or.inr (List.mem_cons_self x hs)
      · exact Or.inr (List.mem_cons_of_mem h hmem)
    · intro x hx
      rw [List.foldl_cons] at *
      rw [htrans (hitKey x)]
      exact ihmax x hx
    · intro k
      rw [List.foldl_cons, ihkey k, insertMax_hasKey]
      constructor
      · rintro ((⟨y, hy, hyk⟩ | hk) | ⟨y, hy, hyk⟩)
        · exact Or.inl ⟨y, hy, hyk⟩
        · exact Or.inr ⟨h, List.mem_cons_self h hs, hk⟩
        · exact Or.inr ⟨y, List.mem_cons_of_mem h hy, hyk⟩
      · rintro (⟨y, hy, hyk⟩ | ⟨y, hy, hyk⟩)
        · exact Or.inl (Or.inl ⟨y, hy, hyk⟩)
        · rcases List.mem_cons.mp hy with rfl | hmem
          · exact Or.inl (Or.inr hyk)
          · exact Or.inr ⟨y, hmem, hyk⟩

lemma mergeDedup_keysNodup (hits : List Hit) : KeysNodup (mergeDedup hits) :=
  (foldl_insertMax_spec hits [] (List.Pairwise.nil)).1

lemma mergeDedup_subset (hits : List Hit) :
    ∀ x ∈ mergeDedup hits, x ∈ hits := by
  intro x hx
  rcases (foldl_insertMax_spec hits [] (List.Pairwise.nil)).2.1 x hx with
    h0 | h
  · cases h0
  · exact h

lemma mergeDedup_maxScore (hits : List Hit) :
    ∀ x ∈ mergeDedup hits, maxScore? hits (hitKey x) = some x.score := by
  intro x hx
  have := (foldl_insertMax_spec hits [] (List.Pairwise.nil)).2.2.1 x hx
  rwa [List.nil_append] at this

lemma mergeDedup_hasKey (hits : List Hit) (k : Nat × Nat) :
    (∃ y ∈ mergeDedup hits, hitKey y = k) ↔ ∃ y ∈ hits, hitKey y = k := by
  rw [mergeDedup, (foldl_insertMax_spec hits [] (List.Pairwise.nil)).2.2.2 k]
  simp

/-- **C1** — for every query, optional scope and limit, the (spec-modelled)
hybrid search embeds the query with both models, runs the two top-`limit`
retrievals, and returns hits that (i) are sorted descending by merged score,
(ii) number at most `limit`, (iii) are pairwise distinct on
`(resource_id, chunk_index)`, (iv) all come from the two retrievals,
(v) carry as score the maximum score their key attains across both result
sets — in particular the maximum of the two scores when a chunk appears in
both, (vi) respect the scope filter whenever the adapter does, and
(vii) when the deduplicated merge fits within `limit`, cover every retrieved
chunk key. -/
theorem hybrid_search_merge_spec {QD QS : Type} (env : SearchEnv QD QS)
    (query : String) (scope : Option (List Nat)) (limit : Nat) :
    List.Sorted hitGE (search_hybrid env query scope limit) ∧
    (search_hybrid env query scope limit).length ≤ limit ∧
    KeysNodup (search_hybrid env query scope limit) ∧
    (∀ h ∈ search_hybrid env query scope limit,
      h ∈ env.denseSearch (env.embedDenseQuery query) scope limit ++
        env.sparseSearch (env.embedSparseQuery query) scope limit) ∧
    (∀ h ∈ search_hybrid env query scope limit,
      maxScore?
        (env.denseSearch (env.embedDenseQuery query) scope limit ++
          env.sparseSearch (env.embedSparseQuery query) scope limit)
        (hitKey h) = some h.score) ∧
    (∀ ids, scope = some ids →
      (∀ h ∈ env.denseSearch (env.embedDenseQuery query) scope limit,
        h.resource_id ∈ ids) →
      (∀ h ∈ env.sparseSearch (env.embedSparseQuery query) scope limit,
        h.resource_id ∈ ids) →
      ∀ h ∈ search_hybrid env query scope limit, h.resource_id ∈ ids) ∧
    ((mergeDedup
        (env.denseSearch (env.embedDenseQuery query) scope limit ++
          env.sparseSearch (env.embedSparseQuery query) scope limit)).length ≤
        limit →
      ∀ h ∈ env.denseSearch (env.embedDenseQuery query) scope limit ++
          env.sparseSearch (env.embedSparseQuery query) scope limit,
        ∃ h2 ∈ search_hybrid env query scope limit, hitKey h2 = hitKey h) := by
  have hmem : ∀ h ∈ search_hybrid env query scope limit,
      h ∈ mergeDedup
        (env.denseSearch (env.embedDenseQuery query) scope limit ++
          env.sparseSearch (env.embedSparseQuery query) scope limit) := by
    intro h hh
    have h1 := List.take_subset _ _ hh
    exact (List.mem_insertionSort hitGE).mp h1
  refine ⟨?_, ?_, ?_, ?_, ?_, ?_, ?_⟩
  · exact (List.sorted_insertionSort hitGE _).sublist (List.take_sublist _ _)
  · rw [search_hybrid, List.length_take]
    exact min_le_left _ _
  · have hperm := List.perm_insertionSort hitGE
      (mergeDedup
        (env.denseSearch (env.embedDenseQuery query) scope limit ++
          env.sparseSearch (env.embedSparseQuery query) scope limit))
    have hnodup : KeysNodup (List.insertionSort hitGE
        (mergeDedup
          (env.denseSearch (env.embedDenseQuery query) scope limit ++
            env.sparseSearch (env.embedSparseQuery query) scope limit))) :=
      (hperm.pairwise_iff (fun {_ _} hab => Ne.symm hab)).mpr
        (mergeDedup_keysNodup _)
    exact hnodup.sublist (List.take_sublist _ _)
  · exact fun h hh => mergeDedup_subset _ h (hmem h hh)
  · exact fun h hh => mergeDedup_maxScore _ h (hmem h hh)
  · intro ids _ hd hs h hh
    rcases List.mem_append.mp (mergeDedup_subset _ h (hmem h hh)) with hin | hin
    · exact hd h hin
    · exact hs h hin
  · intro hfit h hh
    have hlen : (List.insertionSort hitGE
        (mergeDedup
          (env.denseSearch (env.embedDenseQuery query) scope limit ++
            env.sparseSearch (env.embedSparseQuery query) scope limit))).length ≤
        limit := by
      rw [(List.perm_insertionSort hitGE _).length_eq]
      exact hfit
    have htake : search_hybrid env query scope limit =
        List.insertionSort hitGE
          (mergeDedup
            (env.denseSearch (env.embedDenseQuery query) scope limit ++
              env.sparseSearch (env.embedSparseQuery query) scope limit)) := by
      rw [search_hybrid]
      exact List.take_of_length_le hlen
    obtain ⟨h2, hh2, hk⟩ := (mergeDedup_hasKey _ (hitKey h)).mpr ⟨h, hh, rfl⟩
    refine ⟨h2, ?_, hk⟩
    rw [htake]
    exact (List.mem_insertionSort hitGE).mpr hh2

/-- Dense retrieval hit for the witness: chunk (5, 0) scored 3/4. -/
def hitDense : Hit :=
  { resource_id := 5, chunk_index := 0, text := "neural networks",
    score := (3 : ℚ)/4 }

/-- Sparse retrieval hit for the witness: the same chunk scored 1/2. -/
def hitSparse : Hit :=
  { resource_id := 5, chunk_index := 0, text := "neural networks",
    score := (1 : ℚ)/2 }

/-- Concrete search environment: both retrievals return one hit for the same
chunk of resource 5. -/
def envHS : SearchEnv Unit Unit :=
  { embedDenseQuery := fun _ => ()
    embedSparseQuery := fun _ => ()
    denseSearch := fun _ _ _ => [hitDense]
    sparseSearch := fun _ _ _ => [hitSparse] }

/-- **C1 witness** — the theorem applied to a concrete scoped query whose
chunk appears in both result sets: the merged list is the single hit carrying
the higher (dense) score, sorted, deduplicated, within limit, inside the
scope, and covering both retrieved hits. -/
theorem hybrid_search_merge_spec_witness :
    List.Sorted hitGE (search_hybrid envHS "neural networks" (some [5]) 10) ∧
    (search_hybrid envHS "neural networks" (some [5]) 10).length ≤ 10 ∧
    KeysNodup (search_hybrid envHS "neural networks" (some [5]) 10) ∧
    (∀ h ∈ search_hybrid envHS "neural networks" (some [5]) 10,
      h.resource_id ∈ [5]) ∧
    (∀ h ∈ envHS.denseSearch (envHS.embedDenseQuery "neural networks")
          (some [5]) 10 ++
        envHS.sparseSearch (envHS.embedSparseQuery "neural networks")
          (some [5]) 10,
      ∃ h2 ∈ search_hybrid envHS "neural networks" (some [5]) 10,
        hitKey h2 = hitKey h) ∧
    search_hybrid envHS "neural networks" (some [5]) 10 = [hitDense] ∧
    hitDense.score = max hitDense.score hitSparse.score := by
  have hcmp : ¬ hitSparse.score > hitDense.score := by
    rw [hitSparse, hitDense]
    norm_num
  have hmerge : mergeDedup ([hitDense] ++ [hitSparse]) = [hitDense] := by
    show insertMax (insertMax [] hitDense) hitSparse = [hitDense]
    rw [show insertMax [] hitDense = [hitDense] from rfl]
    simp only [insertMax]
    rw [if_pos (show hitKey hitDense = hitKey hitSparse from rfl),
      if_neg hcmp]
  have hfinal : search_hybrid envHS "neural networks" (some [5]) 10 =
      [hitDense] :=
    calc search_hybrid envHS "neural networks" (some [5]) 10
        = (List.insertionSort hitGE
            (mergeDedup ([hitDense] ++ [hitSparse]))).take 10 := rfl
      _ = (List.insertionSort hitGE [hitDense]).take 10 := by rw [hmerge]
      _ = [hitDense] := rfl
  have hd : ∀ h ∈ envHS.denseSearch (envHS.embedDenseQuery "neural networks")
      (some [5]) 10, h.resource_id ∈ [5] := by
    intro h hh
    have : h = hitDense := List.mem_singleton.mp hh
    rw [this]
    simp [hitDense]
  have hs : ∀ h ∈ envHS.sparseSearch (envHS.embedSparseQuery "neural networks")
      (some [5]) 10, h.resource_id ∈ [5] := by
    intro h hh
    have : h = hitSparse := List.mem_singleton.mp hh
    rw [this]
    simp [hitSparse]
  have hfit : (mergeDedup
      (envHS.denseSearch (envHS.embedDenseQuery "neural networks")
          (some [5]) 10 ++
        envHS.sparseSearch (envHS.embedSparseQuery "neural networks")
          (some [5]) 10)).length ≤ 10 := by
    rw [show mergeDedup
        (envHS.denseSearch (envHS.embedDenseQuery "neural networks")
            (some [5]) 10 ++
          envHS.sparseSearch (envHS.embedSparseQuery "neural networks")
            (some [5]) 10) = [hitDense] from hmerge]
    simp
  obtain ⟨h1, h2, h3, _, _, h6, h7⟩ :=
    hybrid_search_merge_spec envHS "neural networks" (some [5]) 10
  refine ⟨h1, h2, h3, h6 [5] rfl hd hs, h7 hfit, hfinal, ?_⟩
  have hle : hitSparse.score ≤ hitDense.score := not_lt.mp hcmp
  rw [max_eq_left hle]

end NeuralVault
